import Mathlib

/-!
Verification of the feed-ingestion and metrics-enrichment pipeline in
`src/main.py` (a LinkedIn marketing dashboard collector).

The development shallowly embeds the pure decision logic of the source:

* `Post` models one row of the persisted post table (`lnkdn.csv`): the six
  feed columns kept by `save_posts_append_dedupe` plus the four nullable
  metric columns.  Missing CSV cells / absent dict keys are `none`.
* `mergePosts` models lines 143–157 of `save_posts_append_dedupe`: project
  incoming feed records down to the kept feed columns (dropping any metric
  fields), concatenate existing-then-new, and — under line 156's guard
  `if "article_link" in df_all.columns:`, carried as an explicit boolean —
  `drop_duplicates(subset=["article_link"], keep="last")`.  pandas treats
  missing (NaN) key values as equal to each other in `duplicated`/
  `drop_duplicates`, so the embedded key equality is plain equality on
  `Option String`, with `none = none`.
* `parse_int` models the magnitude parser (lines 42–54).  Python float
  arithmetic is embedded at IEEE-754 binary64 fidelity: `float(...)` on a
  decimal literal rounds to nearest (ties to even) via `roundDouble`,
  suffix scaling re-rounds the exact product, values beyond the double
  range overflow to infinity, `int()` truncates toward zero and raises
  `OverflowError` on infinity, and a malformed fallback token raises
  `ValueError`; the two exceptions are the `.error` cases of `Except`.
* the metric extractor, enrichment selection and pagination models each
  carry their own header comment.
-/

namespace ESMarketing

/-! Embedded definitions. -/

/-- One row of the persisted post table: the feed columns named in the
`keep` list of `save_posts_append_dedupe` plus the four metric columns
added by the merge/enrichment.  A `none` field is a missing value (NaN). -/
structure Post where
  text : Option String := none
  article_posted_date : Option String := none
  total_likes : Option Int := none
  article_title : Option String := none
  article_sub_title : Option String := none
  article_link : Option String := none
  impressions : Option Int := none
  reactions : Option Int := none
  comments : Option Int := none
  reposts : Option Int := none
deriving DecidableEq, Repr

/-- Line 145, `df_new = df_new[[c for c in keep if c in df_new.columns]]`: an incoming
feed record is cut down to the kept feed columns, so whatever metric values
it may carry are dropped; after `pd.concat` the new rows hold NaN in the
four metric columns. -/
def projectNew (p : Post) : Post :=
  { p with impressions := none, reactions := none, comments := none, reposts := none }

/-- Line 157, `drop_duplicates(subset=["article_link"], keep="last")`: keep a
row iff no later row has an equal `article_link`; pandas counts NaN keys as
equal to one another, hence plain `Option`-equality on the key. -/
def dedupeKeepLast : List Post → List Post
  | [] => []
  | p :: rest =>
    if rest.any fun q => q.article_link == p.article_link then dedupeKeepLast rest
    else p :: dedupeKeepLast rest

/-- Lines 143–157 of `save_posts_append_dedupe`: project the incoming
records, concatenate existing store first, and dedupe by `article_link`
keeping the last occurrence — but only under line 156's guard
`if "article_link" in df_all.columns:`.  `linkColumn` is that condition:
whether the concatenated frame carries the `article_link` column.  The
record abstraction cannot derive it (a `none` link conflates an absent key
with a null value), so it is an explicit input; a record with a non-null
link forces it `true`, and it is `false` only when neither the stored CSV
header nor any incoming record ever carried the key.  (The surrounding
I/O — early return on an empty fetch, CSV read/write — is outside the
embedding.) -/
def mergePosts (linkColumn : Bool) (existing incoming : List Post) : List Post :=
  if linkColumn then dedupeKeepLast (existing ++ incoming.map projectNew)
  else existing ++ incoming.map projectNew

/-- All four metric fields of a record are missing. -/
def metricsClear (p : Post) : Bool :=
  p.impressions == none && p.reactions == none && p.comments == none && p.reposts == none

/-- Number of records in `l` whose `article_link` equals `k` (with
`none = none`, as pandas' duplicate detection does). -/
def countLink (l : List Post) (k : Option String) : Nat :=
  (l.filter fun p => p.article_link == k).length

/-- Numeric value of a digit string, most significant digit first. -/
def digitVal (l : List Char) : Nat :=
  l.foldl (fun a c => a * 10 + (c.toNat - 48)) 0

/-- Python `str.strip()`: drop leading and trailing whitespace. -/
def pyStrip (s : List Char) : List Char :=
  ((s.dropWhile Char.isWhitespace).reverse.dropWhile Char.isWhitespace).reverse

/-- Line 45: `str(text).replace(",", "").strip().lower()`. -/
def pyNormalize (s : List Char) : List Char :=
  (pyStrip (s.filter (· != ','))).map Char.toLower

/-- The exact value `mant / 10^flen` of the float obtained by `float(...)`
on a nonnegative decimal literal with `flen` fractional digits. -/
structure Decimal where
  mant : Nat
  flen : Nat
deriving Repr, DecidableEq

/-- The decimal denoted by integer digits `d` and fractional digits `f`. -/
def Decimal.ofDigits (d f : List Char) : Decimal :=
  ⟨digitVal d * 10 ^ f.length + digitVal f, f.length⟩

/-- Python exception kinds raised inside `parse_int`: `ValueError` from
`float(...)` on a malformed literal, `OverflowError` from `int(...)` on an
infinite float. -/
inductive PyErr
  | valueError
  | overflowError
deriving DecidableEq, Repr

/-- Model of the IEEE-754 binary64 value produced from a nonnegative
number: infinity, or a dyadic `m * 2^e` normalized to `2^52 ≤ m < 2^53`
(zero is `finite 0 0`).  Exponents below the subnormal threshold are not
flushed, which leaves `int(...)` — the only consumer — unaffected. -/
inductive PyFloat
  | inf
  | finite (m : Nat) (e : Int)
deriving DecidableEq, Repr

/-- Round `a / b` to the nearest integer, ties to even (`b ≠ 0`). -/
def rdivEven (a b : Nat) : Nat :=
  if 2 * (a % b) < b then a / b
  else if b < 2 * (a % b) then a / b + 1
  else if a / b % 2 = 0 then a / b else a / b + 1

/-- Floor of the base-2 logarithm by fuel recursion (the value halves each
step, so `fuel = n` always suffices); kernel-reducible. -/
def log2F : Nat → Nat → Nat
  | 0, _ => 0
  | fuel + 1, n => if n < 2 then 0 else log2F fuel (n / 2) + 1

def natLog2 (n : Nat) : Nat := log2F n n

/-- One binade candidate of the rounding: round `num / den` at exponent
`E` (so the mantissa target is `num/den · 2^(52-E)`) and accept when it
lands in `[2^52, 2^53)`, or carry into the next binade when it rounds to
exactly `2^53`. -/
def binadeAt (num den : Nat) (E : Int) : Option (Nat × Int) :=
  let shift : Int := 52 - E
  let m := if 0 ≤ shift then rdivEven (num * 2 ^ shift.toNat) den
    else rdivEven num (den * 2 ^ (-shift).toNat)
  if 2 ^ 52 ≤ m ∧ m < 2 ^ 53 then some (m, E - 52)
  else if m = 2 ^ 53 then some (2 ^ 52, E - 51)
  else none

/-- IEEE-754 binary64 rounding (to nearest, ties to even) of the
nonnegative rational `num / den`.  The true binade is `⌊log₂ num⌋ -
⌊log₂ den⌋` or one less, and the lower candidate is tried first (where the
two can both accept, at an exact power of two, they agree); a rounded
value of `2^1024` or more (normalized exponent `≥ 972`) overflows to
infinity, which is IEEE's round-then-check overflow rule.  The final
`none` arm is unreachable: the true binade always accepts.  Validated
bit-for-bit against CPython floats. -/
def roundDouble (num den : Nat) : PyFloat :=
  if num = 0 ∨ den = 0 then .finite 0 0
  else
    let E0 : Int := (natLog2 num : Int) - (natLog2 den : Int)
    match binadeAt num den (E0 - 1) with
    | some (m, e) => if 972 ≤ e then .inf else .finite m e
    | none =>
      match binadeAt num den E0 with
      | some (m, e) => if 972 ≤ e then .inf else .finite m e
      | none => .finite 0 0

/-- The double produced by `float(...)` on the decimal literal
`mant / 10^flen`. -/
def Decimal.toPyFloat (x : Decimal) : PyFloat := roundDouble x.mant (10 ^ x.flen)

/-- IEEE double multiplication by a positive integer scale: round the
exact product once. -/
def PyFloat.mulNat : PyFloat → Nat → PyFloat
  | .inf, _ => .inf
  | .finite m e, scale =>
    if 0 ≤ e then roundDouble (m * scale * 2 ^ e.toNat) 1
    else roundDouble (m * scale) (2 ^ (-e).toNat)

/-- Lines 50–51: `num` is multiplied only when a suffix actually matched
(`scale = 1` means neither `if suf == "k"` nor `if suf == "m"` fired). -/
def PyFloat.scaleBy (x : PyFloat) (scale : Nat) : PyFloat :=
  if scale = 1 then x else x.mulNat scale

/-- Python `int(x)` on a nonnegative double: truncation toward zero
(= floor here); `int(inf)` raises `OverflowError`. -/
def PyFloat.pyInt : PyFloat → Except PyErr Int
  | .inf => .error .overflowError
  | .finite m e =>
    .ok (if 0 ≤ e then (m * 2 ^ e.toNat : Nat) else (m / 2 ^ (-e).toNat : Nat))

/-- Embeds `re.match(r"^(\d+(\.\d+)?)([km])?$", s)` on the normalized (hence
already lowercased) input: on success, the value of group 1 and the scale
factor selected by the optional suffix group (lines 46–51). -/
def strictMatch (s : List Char) : Option (Decimal × Nat) :=
  match s.span Char.isDigit with
  | ([], _) => none
  | (d, r1) =>
    match r1 with
    | [] => some (Decimal.ofDigits d [], 1)
    | ['k'] => some (Decimal.ofDigits d [], 1000)
    | ['m'] => some (Decimal.ofDigits d [], 1000000)
    | '.' :: r2 =>
      match r2.span Char.isDigit with
      | ([], _) => none
      | (f, r3) =>
        match r3 with
        | [] => some (Decimal.ofDigits d f, 1)
        | ['k'] => some (Decimal.ofDigits d f, 1000)
        | ['m'] => some (Decimal.ofDigits d f, 1000000)
        | _ => none
    | _ => none

/-- Embeds `re.search(r"(\d[\d\.]*)", s)`: the leftmost token starting with a
digit and greedily extended over digits and dots (line 53). -/
def fallbackSearch : List Char → Option (List Char)
  | [] => none
  | c :: rest =>
    if c.isDigit then some (c :: rest.takeWhile fun x => x.isDigit || x == '.')
    else fallbackSearch rest

/-- Python `float(g)` for a token made of digits and dots starting with a
digit: its value when `g` is a valid float literal (at most one dot),
`none` when `float` raises `ValueError`. -/
def floatOfToken (g : List Char) : Option Decimal :=
  match g.span Char.isDigit with
  | (ip, []) => some (Decimal.ofDigits ip [])
  | (ip, '.' :: r2) =>
    match r2.span Char.isDigit with
    | (fp, []) => some (Decimal.ofDigits ip fp)
    | _ => none
  | _ => none

/-- Wrapping of `int(num)` (lines 51 and 54): a successful cast is the
parser's integer result, a raised `OverflowError` propagates. -/
def intOfPyFloat (f : PyFloat) : Except PyErr (Option Int) :=
  match f.pyInt with
  | .ok v => .ok (some v)
  | .error e => .error e

def parseToken (g : List Char) : Except PyErr (Option Int) :=
  match floatOfToken g with
  | some x => intOfPyFloat x.toPyFloat
  | none => .error .valueError

/-- Lines 53–54: `m2 = re.search(r"(\d[\d\.]*)", s)`, then
`int(float(m2.group(1))) if m2 else None`. -/
def parseFallback (s : List Char) : Except PyErr (Option Int) :=
  match fallbackSearch s with
  | none => .ok none
  | some g => parseToken g

/-- Lines 46–52, the strict branch: `num = float(m.group(1))`, the
suffix-conditional scaling, then `int(num)`. -/
def parseStrict (x : Decimal) (scale : Nat) : Except PyErr (Option Int) :=
  intOfPyFloat (x.toPyFloat.scaleBy scale)

/-- Embeds `parse_int` (lines 42–54). An `.error` is a raised exception:
`ValueError` from `float(...)` on a bad fallback token, `OverflowError`
from `int(...)` when the (possibly suffix-scaled) value rounded to
infinity. -/
def parse_int : Option String → Except PyErr (Option Int)
  | none => .ok none
  | some t =>
    let s := pyNormalize t.data
    match strictMatch s with
    | some (x, scale) => parseStrict x scale
    | none => parseFallback s

/-- The ten ASCII digit characters. -/
def digitChars : List Char := ['0', '1', '2', '3', '4', '5', '6', '7', '8', '9']

/-- The four metric keys, in the dict-insertion order of lines 205–210. -/
inductive MetricName
  | impressions
  | reactions
  | comments
  | reposts
deriving DecidableEq, Repr

def metricNames : List MetricName :=
  [.impressions, .reactions, .comments, .reposts]

/-- The Phase-1/Phase-2 working dict `metrics` / `out`: one nullable value
per metric key. -/
structure MetricDict where
  impressions : Option Int
  reactions : Option Int
  comments : Option Int
  reposts : Option Int
deriving DecidableEq, Repr

def MetricDict.get (d : MetricDict) : MetricName → Option Int
  | .impressions => d.impressions
  | .reactions => d.reactions
  | .comments => d.comments
  | .reposts => d.reposts

/-- Case-insensitive character equality (`re.IGNORECASE`). -/
def ciEq (a b : Char) : Bool := a.toLower == b.toLower

/-- Case-insensitive literal match at the head of the text; returns the
rest of the text on success. -/
def ciLitAt : List Char → List Char → Option (List Char)
  | [], rest => some rest
  | _ :: _, [] => none
  | l :: ls, r :: rs => if ciEq r l then ciLitAt ls rs else none

/-- The value character class `[\d,\.KkMm]` of the JSON-block patterns. -/
def isNumTokChar (c : Char) : Bool :=
  c.isDigit || c == ',' || c == '.' || c == 'k' || c == 'K' || c == 'm' || c == 'M'

/-- Match `"KEY"\s*:\s*"?([\d,\.KkMm]+)"?` at the head of `cs`, returning
the captured value token.  (If the optional opening quote is present it is
consumed; backtracking cannot help, since a quote is not a value
character.) -/
def matchJsonKeyAt (key cs : List Char) : Option (List Char) :=
  match cs with
  | '"' :: cs1 =>
    match ciLitAt key cs1 with
    | none => none
    | some cs2 =>
      match cs2 with
      | '"' :: cs3 =>
        match cs3.dropWhile Char.isWhitespace with
        | ':' :: cs5 =>
          let cs6 := cs5.dropWhile Char.isWhitespace
          let cs7 := match cs6 with
            | '"' :: r => r
            | r => r
          let tok := cs7.takeWhile isNumTokChar
          if tok.isEmpty then none else some tok
        | _ => none
      | _ => none
  | _ => none

/-- Scanning `re.search` for a JSON-block pattern: leftmost match wins. -/
def searchJsonKey (key : List Char) : List Char → Option (List Char)
  | [] => none
  | c :: rest =>
    match matchJsonKeyAt key (c :: rest) with
    | some tok => some tok
    | none => searchJsonKey key rest

/-- Embeds `nums[key] = parse_int(m.group(1))` for one candidate of lines
165–178; `none` when the pattern does not match (`key` absent from
`nums`); a `ValueError` raised by `parse_int` propagates. -/
def jsonNum (html : List Char) (key : List Char) : Except Unit (Option Int) :=
  match searchJsonKey key html with
  | none => .ok none
  | some tok =>
    match parse_int (some ⟨tok⟩) with
    | .ok v => .ok v
    | .error _ => .error ()

/-- Python `a or b` on nullable ints: `a` unless it is falsy (`None` or
`0`). -/
def pyOr (a b : Option Int) : Option Int :=
  match a with
  | some v => if v = 0 then b else some v
  | none => b

/-- Embeds `_extract_from_json_blocks` (lines 163–184): scan the raw html for the
eight candidate keys, then merge synonyms with Python `or` (lines
180–183); the dict-comprehension filter of line 184 is deferred to the
caller-side lookup, which cannot distinguish an absent key from a `None`
value.  `.error ()` is a `ValueError` raised by `parse_int` on some
matched token. -/
def extractFromJsonBlocks (html : List Char) : Except Unit MetricDict :=
  match jsonNum html "impressions".data, jsonNum html "views".data,
      jsonNum html "likes".data, jsonNum html "reactions".data,
      jsonNum html "comments".data, jsonNum html "replies".data,
      jsonNum html "reposts".data, jsonNum html "shares".data with
  | .ok imp, .ok vws, .ok lks, .ok rcts, .ok cmts, .ok rpls, .ok rpsts, .ok shrs =>
    .ok ⟨pyOr imp vws, pyOr rcts lks, pyOr cmts rpls, pyOr rpsts shrs⟩
  | _, _, _, _, _, _, _, _ => .error ()

/-- The group-1 character class `[\d,\.]` of the visible-text patterns. -/
def isNumChar (c : Char) : Bool := c.isDigit || c == ',' || c == '.'

/-- Match `(\d[\d,\.]*\s*[KkMm]?)\s*LITERAL` at the head of `cs`
(case-insensitive literal), returning group 1: the digit run plus the
whitespace and optional magnitude suffix swallowed by the group's inner
`\s*[KkMm]?`.  The greedy optional suffix is tried consumed first, then
unconsumed. -/
def matchNumBeforeAt (lit cs : List Char) : Option (List Char) :=
  match cs with
  | [] => none
  | c :: rest =>
    if c.isDigit then
      let run := c :: rest.takeWhile isNumChar
      let rest1 := rest.dropWhile isNumChar
      let ws1 := rest1.takeWhile Char.isWhitespace
      let rest2 := rest1.dropWhile Char.isWhitespace
      let noSuffix : Option (List Char) :=
        match ciLitAt lit rest2 with
        | some _ => some (run ++ ws1)
        | none => none
      match rest2 with
      | u :: rest3 =>
        if u == 'k' || u == 'K' || u == 'm' || u == 'M' then
          match ciLitAt lit (rest3.dropWhile Char.isWhitespace) with
          | some _ => some (run ++ ws1 ++ [u])
          | none => noSuffix
        else noSuffix
      | [] => noSuffix
    else none

/-- Scanning `re.search` for a visible-text pattern: leftmost match wins. -/
def searchNumBefore (lit : List Char) : List Char → Option (List Char)
  | [] => none
  | c :: rest =>
    match matchNumBeforeAt lit (c :: rest) with
    | some g => some g
    | none => searchNumBefore lit rest

/-- Embeds `grab(patterns)` (lines 199–203): first pattern that matches wins and
its group is fed to `parse_int` (whose `ValueError` propagates); `None`
when no pattern matches. -/
def grab (text : List Char) : List (List Char) → Except Unit (Option Int)
  | [] => .ok none
  | lit :: lits =>
    match searchNumBefore lit text with
    | some g =>
      match parse_int (some ⟨g⟩) with
      | .ok v => .ok v
      | .error _ => .error ()
    | none => grab text lits

/-- The Phase-1 pattern literals per metric (lines 205–210).  The trailing
`s?` of `comments?` / `reposts?` / `shares?` is not followed by anything in
the pattern, so those patterns match exactly when their singular stem
does, with the same group. -/
def phase1Lits : MetricName → List (List Char)
  | .impressions => [ "impressions".data, "views".data ]
  | .reactions => [ "reactions".data, "likes".data ]
  | .comments => [ "comment".data ]
  | .reposts => [ "repost".data, "share".data ]

/-- Lines 216–217: `for k in missing: if k in from_json: metrics[k] =
from_json[k]` — the JSON-block value is written only into metrics Phase 1
left `None`. -/
def fillMissing (metrics fromJson : MetricDict) : MetricDict :=
  ⟨match metrics.impressions with | some v => some v | none => fromJson.impressions,
   match metrics.reactions with | some v => some v | none => fromJson.reactions,
   match metrics.comments with | some v => some v | none => fromJson.comments,
   match metrics.reposts with | some v => some v | none => fromJson.reposts⟩

/-- Line 218: `return {k: v for k, v in metrics.items() if v is not None}`. -/
def dropNone (metrics : MetricDict) : List (MetricName × Int) :=
  metricNames.filterMap fun m => (metrics.get m).map fun v => (m, v)

/-- Lines 213–217: when some metric is missing, run the JSON-block scan
and fill exactly the missing metrics (a `ValueError` from the scan
propagates); when none is missing, the scan is never invoked. -/
def jsonFill (metrics : MetricDict) (html : List Char) : Except Unit MetricDict :=
  if metricNames.any fun m => (metrics.get m).isNone then
    match extractFromJsonBlocks html with
    | .ok fromJson => .ok (fillMissing metrics fromJson)
    | .error e => .error e
  else .ok metrics

/-- Lines 199–218 of `fetch_post_metrics`: Phase-1 grabs on the visible
text, the JSON-block fallback on the raw html for metrics still `None`,
and the final `None` filter. -/
def fetchPostMetricsCore (text html : List Char) : Except Unit (List (MetricName × Int)) :=
  match grab text (phase1Lits .impressions), grab text (phase1Lits .reactions),
      grab text (phase1Lits .comments), grab text (phase1Lits .reposts) with
  | .ok imp, .ok rea, .ok com, .ok rep =>
    match jsonFill ⟨imp, rea, com, rep⟩ html with
    | .ok final => .ok (dropNone final)
    | .error e => .error e
  | _, _, _, _ => .error ()

/-- Embeds `fetch_post_metrics` (lines 186–221) at the `requests.get` boundary:
the input is the fetch outcome — `.error ()` a raised transport exception,
`.ok (status, html, text)` a response with its raw body and the visible
text `BeautifulSoup.get_text` renders from it.  A non-200 status returns
the empty dict (line 194); any exception inside the `try` (transport or
`ValueError` from parsing) is caught and yields the empty dict (lines
219–221). -/
def fetch_post_metrics (fetch : Except Unit (Nat × List Char × List Char)) :
    List (MetricName × Int) :=
  match fetch with
  | .error _ => []
  | .ok (status, html, text) =>
    if status ≠ 200 then []
    else
      match fetchPostMetricsCore text html with
      | .ok m => m
      | .error _ => []

instance {ε α : Type} [DecidableEq ε] [DecidableEq α] : DecidableEq (Except ε α) := fun x y =>
  match x, y with
  | .ok a, .ok b =>
    if h : a = b then .isTrue (by rw [h]) else .isFalse fun he => h (Except.ok.inj he)
  | .error a, .error b =>
    if h : a = b then .isTrue (by rw [h]) else .isFalse fun he => h (Except.error.inj he)
  | .ok _, .error _ => .isFalse fun he => Except.noConfusion he
  | .error _, .ok _ => .isFalse fun he => Except.noConfusion he

/-- The preferred structured-data key per metric: the left operand of the
Python `or` in lines 180–183. -/
def primaryKey : MetricName → List Char
  | .impressions => "impressions".data
  | .reactions => "reactions".data
  | .comments => "comments".data
  | .reposts => "reposts".data

/-- Line 229's row predicate:
`df[["impressions","reactions","comments","reposts"]].isna().any(axis=1)` —
at least one of the four metric fields is missing. -/
def anyMetricMissing (p : Post) : Bool :=
  p.impressions.isNone || p.reactions.isNone || p.comments.isNone || p.reposts.isNone

/-- Lines 229–230: the qualifying rows in store order, truncated to the
first `max_to_enrich` by `.head(...)`. -/
def selectNeed (df : List Post) (maxToEnrich : Nat) : List Post :=
  (df.filter anyMetricMissing).take maxToEnrich

/-- The inner `for i in range(max_pages)` loop (lines 120–134), started at
page index `i` with `fuel` iterations left: returns the records this shape
accumulated, the number of page requests issued, and `got_any`.  A page
stops the loop when it is empty (line 127, before extending) or shorter
than `limit` (line 130, after extending). -/
def pagLoop {α : Type} (pages : Nat → List α) (limit : Nat) : Nat → Nat → List α × Nat × Bool
  | _, 0 => ([], 0, false)
  | i, fuel + 1 =>
    let page := pages i
    if page.isEmpty then ([], 1, false)
    else if page.length < limit then (page, 1, true)
    else
      let r := pagLoop pages limit (i + 1) fuel
      (page ++ r.1, r.2.1 + 1, true)

/-- One shape's pagination: pages `0, 1, 2, …` up to `max_pages`. -/
def paginateShape {α : Type} (pages : Nat → List α) (limit maxPages : Nat) :
    List α × Nat × Bool :=
  pagLoop pages limit 0 maxPages

/-- The outer loop over endpoint shapes (lines 118–135): paginate each
shape in order, appending whatever it accumulated, and stop as soon as a
shape's `got_any` is set.  Returns the collected records and the number of
shapes attempted. -/
def tryShapes {α : Type} (limit maxPages : Nat) : List (Nat → List α) → List α × Nat
  | [] => ([], 0)
  | s :: rest =>
    let r := paginateShape s limit maxPages
    if r.2.2 then (r.1, 1)
    else
      let r2 := tryShapes limit maxPages rest
      (r.1 ++ r2.1, r2.2 + 1)

/-- A page response that terminates a shape's pagination: empty, or fewer
records than the page size. -/
def stopsPage {α : Type} (limit : Nat) (page : List α) : Prop :=
  page = [] ∨ page.length < limit

instance {α : Type} [DecidableEq α] (limit : Nat) (page : List α) :
    Decidable (stopsPage limit page) := by
  unfold stopsPage; infer_instance

/-- The `[20, 20, 5]`-page feed shape of the claim's concrete scenario. -/
def c9pages : Nat → List Nat := fun i =>
  if i = 0 then List.range 20
  else if i = 1 then List.range 20
  else if i = 2 then List.range 5
  else []

/-! Lemmas and claim theorems. -/

theorem dedupeKeepLast_cons (p : Post) (rest : List Post) :
    dedupeKeepLast (p :: rest) =
      if rest.any (fun q => q.article_link == p.article_link) then dedupeKeepLast rest
      else p :: dedupeKeepLast rest := rfl

theorem projectNew_link (p : Post) : (projectNew p).article_link = p.article_link := rfl

theorem projectNew_eq_self (p : Post) (h : metricsClear p = true) : projectNew p = p := by
  cases p
  simp only [metricsClear, Bool.and_eq_true, beq_iff_eq] at h
  simp [projectNew, h.1.1.1, h.1.1.2, h.1.2, h.2]

theorem map_projectNew_eq_self (S : List Post) (h : ∀ p ∈ S, metricsClear p = true) :
    S.map projectNew = S := by
  induction S with
  | nil => rfl
  | cons p rest ih =>
    simp only [List.map_cons]
    rw [projectNew_eq_self p (h p (List.mem_cons_self p rest)),
      ih fun q hq => h q (List.mem_cons_of_mem p hq)]

theorem countLink_cons (p : Post) (rest : List Post) (k : Option String) :
    countLink (p :: rest) k
      = countLink rest k + (if p.article_link = k then 1 else 0) := by
  by_cases hk : p.article_link = k <;>
    simp [countLink, List.filter_cons, hk]

theorem dedupeKeepLast_append_subsumed (l₁ l₂ : List Post)
    (h : ∀ p ∈ l₁, l₂.any (fun q => q.article_link == p.article_link) = true) :
    dedupeKeepLast (l₁ ++ l₂) = dedupeKeepLast l₂ := by
  induction l₁ with
  | nil => rfl
  | cons p rest ih =>
    have hp : ((rest ++ l₂).any fun q => q.article_link == p.article_link) = true := by
      rw [List.any_append, h p (List.mem_cons_self p rest), Bool.or_true]
    rw [List.cons_append, dedupeKeepLast_cons, if_pos hp]
    exact ih fun q hq => h q (List.mem_cons_of_mem p hq)

theorem dedupeKeepLast_of_pairwise (S : List Post)
    (h : S.Pairwise fun p q => p.article_link ≠ q.article_link) :
    dedupeKeepLast S = S := by
  induction S with
  | nil => rfl
  | cons p rest ih =>
    have hno : ¬ (rest.any fun q => q.article_link == p.article_link) = true := by
      rw [List.any_eq_true]
      rintro ⟨q, hq, hqk⟩
      exact (List.pairwise_cons.mp h).1 q hq (beq_iff_eq.mp hqk).symm
    rw [dedupeKeepLast_cons, if_neg hno, ih (List.pairwise_cons.mp h).2]

theorem countLink_dedupeKeepLast (l : List Post) (k : Option String) :
    countLink (dedupeKeepLast l) k = if countLink l k = 0 then 0 else 1 := by
  induction l with
  | nil => rfl
  | cons p rest ih =>
    by_cases hdup : (rest.any fun q => q.article_link == p.article_link) = true
    · rw [dedupeKeepLast_cons, if_pos hdup, ih, countLink_cons]
      by_cases hk : p.article_link = k
      · obtain ⟨q, hq, hqk⟩ := List.any_eq_true.mp hdup
        have hmem : q ∈ rest.filter fun r => r.article_link == k :=
          List.mem_filter.mpr ⟨hq, beq_iff_eq.mpr ((beq_iff_eq.mp hqk).trans hk)⟩
        have hq1 : 0 < countLink rest k := List.length_pos.mpr (List.ne_nil_of_mem hmem)
        rw [if_pos hk, if_neg (by omega), if_neg (by omega)]
      · rw [if_neg hk, Nat.add_zero]
    · rw [dedupeKeepLast_cons, if_neg hdup, countLink_cons, countLink_cons, ih]
      by_cases hk : p.article_link = k
      · have hrest0 : countLink rest k = 0 := by
          simp only [countLink, List.length_eq_zero, List.filter_eq_nil_iff]
          intro q hq
          simp only [beq_iff_eq]
          intro e
          exact hdup (List.any_eq_true.mpr ⟨q, hq, beq_iff_eq.mpr (e.trans hk.symm)⟩)
        rw [hrest0, if_pos hk, if_pos rfl, if_neg (by omega)]
      · simp [hk]

theorem dedupeKeepLast_keeps_key (l : List Post) (k : Option String)
    (h : ∃ p ∈ l, p.article_link = k) : ∃ q ∈ dedupeKeepLast l, q.article_link = k := by
  induction l with
  | nil => exact absurd h (by simp)
  | cons p rest ih =>
    by_cases hdup : (rest.any fun q => q.article_link == p.article_link) = true
    · rw [dedupeKeepLast_cons, if_pos hdup]
      obtain ⟨r, hr, hrk⟩ := h
      rcases List.mem_cons.mp hr with he | hrest
      · obtain ⟨q, hq, hqk⟩ := List.any_eq_true.mp hdup
        exact ih ⟨q, hq, (beq_iff_eq.mp hqk).trans (he ▸ hrk)⟩
      · exact ih ⟨r, hrest, hrk⟩
    · rw [dedupeKeepLast_cons, if_neg hdup]
      obtain ⟨r, hr, hrk⟩ := h
      rcases List.mem_cons.mp hr with he | hrest
      · exact ⟨p, List.mem_cons_self _ _, he ▸ hrk⟩
      · obtain ⟨q, hq, hqk⟩ := ih ⟨r, hrest, hrk⟩
        exact ⟨q, List.mem_cons_of_mem _ hq, hqk⟩

theorem countLink_append (l₁ l₂ : List Post) (k : Option String) :
    countLink (l₁ ++ l₂) k = countLink l₁ k + countLink l₂ k := by
  simp [countLink, List.filter_append]

theorem countLink_map_projectNew (l : List Post) (k : Option String) :
    countLink (l.map projectNew) k = countLink l k := by
  induction l with
  | nil => rfl
  | cons p rest ih =>
    rw [List.map_cons, countLink_cons, countLink_cons, ih, projectNew_link]

/-- C1: the merge is the naive `keep="last"` dedupe; it does **not** carry
non-null metric values forward from the superseded stored occurrence.
Evaluating the embedded merge at the claim's own example — a stored record
for link `A` with `reactions=50` against an incoming duplicate-key record
with all metrics null (the non-null link makes the `article_link` column
present, so line 156's guard holds) — the single merged record has
`reactions = none`, not `reactions = 50`. -/
theorem C1_merge_drops_stored_metrics :
    mergePosts true [{ article_link := some "A", reactions := some 50 }]
        [{ article_link := some "A" }]
      = [{ article_link := some "A", reactions := none }] := by decide

/-- C2 (counterexample): merging the one-record store
`[{article_link = A, reactions = 50}]` with itself (the non-null link
forces the `article_link` column present) does not return it unchanged —
the incoming copy is projected down to the feed columns, so the kept last
occurrence has lost `reactions = 50`. -/
theorem C2_counterexample :
    mergePosts true [{ article_link := some "A", reactions := some 50 }]
        [{ article_link := some "A", reactions := some 50 }]
      ≠ [{ article_link := some "A", reactions := some 50 }] := by decide

/-- C2 (amended): when the concatenated frame carries the `article_link`
column, merge is idempotent on stores whose records have pairwise distinct
`article_link` values (all missing links counting as one shared key) and
all-null metric fields: `mergePosts true S S = S` exactly.  With non-null
metrics the projection of the incoming copy erases them — see
`C2_counterexample`; and when the column is absent (possible only when
every record lacks a link) the dedupe is skipped, so merging any nonempty
store with itself duplicates it. -/
theorem C2_merge_idempotent_on_metric_free_stores :
    (∀ S : List Post, S.Pairwise (fun p q => p.article_link ≠ q.article_link) →
      (∀ p ∈ S, metricsClear p = true) → mergePosts true S S = S)
    ∧ ∀ S : List Post, S ≠ [] → mergePosts false S S ≠ S := by
  constructor
  · intro S hnodup hclear
    rw [show mergePosts true S S = dedupeKeepLast (S ++ S.map projectNew) from rfl,
      map_projectNew_eq_self S hclear,
      dedupeKeepLast_append_subsumed S S
        (fun p hp => List.any_eq_true.mpr ⟨p, hp, beq_self_eq_true _⟩)]
    exact dedupeKeepLast_of_pairwise S hnodup
  · intro S hne heq
    have hlen : (mergePosts false S S).length = S.length + S.length := by
      rw [show mergePosts false S S = S ++ S.map projectNew from rfl]
      simp
    rw [heq] at hlen
    exact hne (List.length_eq_zero.mp (by omega))

/-- C2 (witness): the amended idempotence at a concrete two-record store,
and the duplication at a concrete keyless store with the column absent. -/
theorem C2_witness :
    mergePosts true [{ article_link := some "A" }, { article_link := some "B" }]
        [{ article_link := some "A" }, { article_link := some "B" }]
      = [{ article_link := some "A" }, { article_link := some "B" }]
    ∧ mergePosts false [{ text := some "a" }] [{ text := some "a" }]
      ≠ [{ text := some "a" }] :=
  ⟨C2_merge_idempotent_on_metric_free_stores.1 _ (by decide) (by decide),
   C2_merge_idempotent_on_metric_free_stores.2 _ (by decide)⟩

/-- C3 (counterexample): two records lacking an `article_link` **are**
deduplicated against each other whenever the `article_link` column exists
— pandas counts NaN keys as equal.  Here the existing store's record with
link `A` forces the column present, and the existing missing-link record
`{text = "a"}` does not survive a merge with the incoming missing-link
record `{text = "b"}`. -/
theorem C3_counterexample :
    mergePosts true [{ article_link := some "A" }, { text := some "a" }] [{ text := some "b" }]
      = [{ article_link := some "A" }, { text := some "b" }]
    ∧ ({ text := some "a" } : Post) ∉
        mergePosts true [{ article_link := some "A" }, { text := some "a" }]
          [{ text := some "b" }] := by
  decide

/-- C3 (amended): when the concatenated frame carries the `article_link`
column (forced whenever any record has a link), all missing-link records
collapse to a single one — exactly one record with `article_link = none`
survives when the existing store or the incoming batch contains any, and
none otherwise; only when no frame carries the column at all is the dedupe
skipped and every missing-link record retained.  A missing-link record is
never merged with a record that has a link. -/
theorem C3_missing_link_records_collapse :
    (∀ ex inc : List Post,
      countLink (mergePosts true ex inc) none
        = if countLink ex none + countLink inc none = 0 then 0 else 1)
    ∧ ∀ ex inc : List Post,
      countLink (mergePosts false ex inc) none
        = countLink ex none + countLink inc none := by
  constructor
  · intro ex inc
    rw [show mergePosts true ex inc = dedupeKeepLast (ex ++ inc.map projectNew) from rfl,
      countLink_dedupeKeepLast, countLink_append, countLink_map_projectNew]
  · intro ex inc
    rw [show mergePosts false ex inc = ex ++ inc.map projectNew from rfl,
      countLink_append, countLink_map_projectNew]

/-- C10: the merge never deletes a key — any non-null `article_link`
present in the existing store is still present (on some record) in the
merged output, for every incoming batch and under either realization of
line 156's column guard. -/
theorem C10_merge_preserves_existing_keys (col : Bool) (ex inc : List Post) (link : String)
    (h : ∃ p ∈ ex, p.article_link = some link) :
    ∃ q ∈ mergePosts col ex inc, q.article_link = some link := by
  obtain ⟨p, hp, hpk⟩ := h
  cases col with
  | true =>
    rw [show mergePosts true ex inc = dedupeKeepLast (ex ++ inc.map projectNew) from rfl]
    exact dedupeKeepLast_keeps_key _ _ ⟨p, List.mem_append_left _ hp, hpk⟩
  | false =>
    rw [show mergePosts false ex inc = ex ++ inc.map projectNew from rfl]
    exact ⟨p, List.mem_append_left _ hp, hpk⟩

/-- C10 (witness): key `A` of the existing store survives a merge with an
incoming batch keyed `B` (column present, so the dedupe runs). -/
theorem C10_witness :
    ∃ q ∈ mergePosts true [{ article_link := some "A" }] [{ article_link := some "B" }],
      q.article_link = some "A" :=
  C10_merge_preserves_existing_keys true
    [{ article_link := some "A" }] [{ article_link := some "B" }] "A" (by decide)

theorem char_digit_props (c : Char) (h : c ∈ digitChars) :
    c.isDigit = true ∧ c.toLower = c ∧ (c != ',') = true ∧ c.isWhitespace = false := by
  fin_cases h <;> exact ⟨rfl, rfl, rfl, rfl⟩

theorem takeWhile_append_sat (p : Char → Bool) (d r : List Char)
    (hd : ∀ c ∈ d, p c = true) (hr : ∀ c, r.head? = some c → p c = false) :
    (d ++ r).takeWhile p = d := by
  induction d with
  | nil =>
    cases r with
    | nil => rfl
    | cons c rest => simp [List.takeWhile_cons, hr c rfl]
  | cons c d' ih =>
    rw [List.cons_append, List.takeWhile_cons, hd c (List.mem_cons_self c d'), if_pos rfl,
      ih fun x hx => hd x (List.mem_cons_of_mem c hx)]

theorem dropWhile_append_sat (p : Char → Bool) (d r : List Char)
    (hd : ∀ c ∈ d, p c = true) (hr : ∀ c, r.head? = some c → p c = false) :
    (d ++ r).dropWhile p = r := by
  induction d with
  | nil =>
    cases r with
    | nil => rfl
    | cons c rest => simp [List.dropWhile_cons, hr c rfl]
  | cons c d' ih =>
    rw [List.cons_append, List.dropWhile_cons, hd c (List.mem_cons_self c d'), if_pos rfl,
      ih fun x hx => hd x (List.mem_cons_of_mem c hx)]

theorem span_append_sat (p : Char → Bool) (d r : List Char)
    (hd : ∀ c ∈ d, p c = true) (hr : ∀ c, r.head? = some c → p c = false) :
    (d ++ r).span p = (d, r) := by
  rw [List.span_eq_take_drop, takeWhile_append_sat p d r hd hr, dropWhile_append_sat p d r hd hr]

theorem dropWhile_eq_self_of_none (p : Char → Bool) (l : List Char)
    (h : ∀ c ∈ l, p c = false) : l.dropWhile p = l := by
  cases l with
  | nil => rfl
  | cons c rest => simp [List.dropWhile_cons, h c (List.mem_cons_self c rest)]

/-- Normalization `pyNormalize` is the identity on strings without commas, whitespace or
uppercase letters. -/
theorem pyNormalize_eq_self (l : List Char)
    (h : ∀ c ∈ l, (c != ',') = true ∧ c.isWhitespace = false ∧ c.toLower = c) :
    pyNormalize l = l := by
  have h1 : l.filter (· != ',') = l := List.filter_eq_self.mpr fun c hc => (h c hc).1
  have h2 : l.dropWhile Char.isWhitespace = l :=
    dropWhile_eq_self_of_none _ l fun c hc => (h c hc).2.1
  have h3 : l.reverse.dropWhile Char.isWhitespace = l.reverse :=
    dropWhile_eq_self_of_none _ l.reverse fun c hc => (h c (List.mem_reverse.mp hc)).2.1
  have h4 : l.map Char.toLower = l := by
    conv_rhs => rw [← List.map_id l]
    exact List.map_congr_left fun c hc => (h c hc).2.2
  rw [pyNormalize, h1, pyStrip, h2, h3, List.reverse_reverse, h4]

theorem fallbackSearch_eq_none_iff (l : List Char) :
    fallbackSearch l = none ↔ ∀ c ∈ l, c.isDigit = false := by
  induction l with
  | nil => simp [fallbackSearch]
  | cons c rest ih =>
    cases hc : c.isDigit with
    | true => simp [fallbackSearch, hc, List.forall_mem_cons]
    | false => simp [fallbackSearch, hc, ih, List.forall_mem_cons]

theorem strictMatch_eq_none_of_no_digit (l : List Char) (h : ∀ c ∈ l, c.isDigit = false) :
    strictMatch l = none := by
  cases l with
  | nil => rfl
  | cons c r =>
    have hspan : (c :: r).span Char.isDigit = ([], c :: r) := by
      rw [List.span_eq_take_drop, List.takeWhile_cons, List.dropWhile_cons]
      simp [h c (List.mem_cons_self c r)]
    unfold strictMatch
    rw [hspan]

theorem digitVal_nil : digitVal [] = 0 := rfl

/-- Unfolding equation for `parse_int` on a present input. -/
theorem parse_int_some_eq (t : String) :
    parse_int (some t)
      = match strictMatch (pyNormalize t.data) with
        | some (x, scale) => parseStrict x scale
        | none => parseFallback (pyNormalize t.data) := rfl

theorem strictMatch_digits (c : Char) (d : List Char)
    (hd : ∀ x ∈ c :: d, x.isDigit = true) :
    strictMatch ((c :: d) ++ ['k']) = some (Decimal.ofDigits (c :: d) [], 1000)
    ∧ strictMatch ((c :: d) ++ ['m']) = some (Decimal.ofDigits (c :: d) [], 1000000)
    ∧ strictMatch (c :: d) = some (Decimal.ofDigits (c :: d) [], 1) := by
  have hk : ((c :: d) ++ ['k']).span Char.isDigit = (c :: d, ['k']) :=
    span_append_sat _ _ _ hd fun x hx => by cases hx; rfl
  have hm : ((c :: d) ++ ['m']).span Char.isDigit = (c :: d, ['m']) :=
    span_append_sat _ _ _ hd fun x hx => by cases hx; rfl
  have h0 : (c :: d).span Char.isDigit = (c :: d, []) := by
    have := span_append_sat Char.isDigit (c :: d) [] hd fun x hx => by cases hx
    rwa [List.append_nil] at this
  refine ⟨?_, ?_, ?_⟩
  · unfold strictMatch; rw [hk]; rfl
  · unfold strictMatch; rw [hm]; rfl
  · unfold strictMatch; rw [h0]

/-! Exactness of the binary64 rounding on integers below `2^53`, the range
where the source's double arithmetic is exact. -/

theorem rdivEven_of_dvd (a b : Nat) (hb : 0 < b) (h : b ∣ a) : rdivEven a b = a / b := by
  obtain ⟨c, rfl⟩ := h
  have hm : b * c % b = 0 := Nat.mul_mod_right b c
  unfold rdivEven
  rw [hm]
  simp [hb]

theorem log2F_spec : ∀ fuel n : Nat, 0 < n → n ≤ fuel →
    2 ^ log2F fuel n ≤ n ∧ n < 2 ^ (log2F fuel n + 1) := by
  intro fuel
  induction fuel with
  | zero => intro n h1 h2; omega
  | succ fuel ih =>
    intro n h1 h2
    by_cases hn : n < 2
    · have hn1 : n = 1 := by omega
      subst hn1
      have he : log2F (fuel + 1) 1 = 0 := by simp [log2F]
      rw [he]
      norm_num
    · have he : log2F (fuel + 1) n = log2F fuel (n / 2) + 1 := by
        simp only [log2F]
        rw [if_neg hn]
      rw [he]
      have hpos : 0 < n / 2 := by omega
      have hle : n / 2 ≤ fuel := by omega
      obtain ⟨ha, hb⟩ := ih (n / 2) hpos hle
      constructor
      · have h2p : (2:Nat) ^ (log2F fuel (n / 2) + 1) = 2 * 2 ^ log2F fuel (n / 2) := by
          ring
        omega
      · have h2p : (2:Nat) ^ (log2F fuel (n / 2) + 1 + 1)
            = 2 * 2 ^ (log2F fuel (n / 2) + 1) := by ring
        omega

theorem natLog2_spec (n : Nat) (h : 0 < n) :
    2 ^ natLog2 n ≤ n ∧ n < 2 ^ (natLog2 n + 1) :=
  log2F_spec n n h (Nat.le_refl n)

theorem natLog2_unique (n t : Nat) (h1 : 2 ^ t ≤ n) (h2 : n < 2 ^ (t + 1)) :
    natLog2 n = t := by
  have hpos : 0 < n := lt_of_lt_of_le (Nat.two_pow_pos t) h1
  obtain ⟨ha, hb⟩ := natLog2_spec n hpos
  rcases Nat.lt_trichotomy (natLog2 n) t with hlt | heq | hgt
  · have hc : (2:Nat) ^ (natLog2 n + 1) ≤ 2 ^ t := Nat.pow_le_pow_right (by omega) (by omega)
    omega
  · exact heq
  · have hc : (2:Nat) ^ (t + 1) ≤ 2 ^ natLog2 n := Nat.pow_le_pow_right (by omega) (by omega)
    omega

theorem natLog2_pow2 (s : Nat) : natLog2 (2 ^ s) = s :=
  natLog2_unique _ _ (Nat.le_refl _) (Nat.pow_lt_pow_right (by omega) (by omega))

theorem natLog2_mul_pow2 (k s : Nat) (hk : 0 < k) :
    natLog2 (k * 2 ^ s) = natLog2 k + s := by
  obtain ⟨ha, hb⟩ := natLog2_spec k hk
  refine natLog2_unique _ _ ?_ ?_
  · rw [pow_add]
    exact Nat.mul_le_mul_right _ ha
  · have he : natLog2 k + s + 1 = natLog2 k + 1 + s := by omega
    rw [he, pow_add]
    exact Nat.mul_lt_mul_of_lt_of_le hb (Nat.le_refl _) (Nat.two_pow_pos s)

theorem natLog2_le_52 (k : Nat) (hk0 : 0 < k) (hk : k < 2 ^ 53) : natLog2 k ≤ 52 := by
  obtain ⟨ha, -⟩ := natLog2_spec k hk0
  by_contra hgt
  have hc : (2:Nat) ^ 53 ≤ 2 ^ natLog2 k := Nat.pow_le_pow_right (by omega) (by omega)
  omega

theorem roundDouble_eq_of_binade (num den : Nat) (hnum : num ≠ 0) (hden : den ≠ 0)
    (m : Nat) (e : Int)
    (h : binadeAt num den ((natLog2 num : Int) - (natLog2 den : Int) - 1) = some (m, e)
       ∨ (binadeAt num den ((natLog2 num : Int) - (natLog2 den : Int) - 1) = none
          ∧ binadeAt num den ((natLog2 num : Int) - (natLog2 den : Int)) = some (m, e))) :
    roundDouble num den = if 972 ≤ e then .inf else .finite m e := by
  unfold roundDouble
  rw [if_neg (by push_neg; exact ⟨hnum, hden⟩)]
  dsimp only
  rcases h with h | ⟨h1, h2⟩
  · rw [h]
  · rw [h1, h2]

theorem roundDouble_pow2_exact (k s : Nat) (hk0 : 0 < k) (hk : k < 2 ^ 53) :
    roundDouble (k * 2 ^ s) (2 ^ s)
      = .finite (k * 2 ^ (52 - natLog2 k)) ((natLog2 k : Int) - 52) := by
  obtain ⟨ha, hb⟩ := natLog2_spec k hk0
  have hL52 : natLog2 k ≤ 52 := natLog2_le_52 k hk0 hk
  set L := natLog2 k with hL
  have hden : (0:Nat) < 2 ^ s := Nat.two_pow_pos s
  have hpow53 : (2:Nat) ^ L * 2 ^ (53 - L) = 2 ^ 53 := by
    rw [← pow_add]
    congr 1
    omega
  have hpow53' : (2:Nat) ^ (L + 1) * 2 ^ (52 - L) = 2 ^ 53 := by
    rw [← pow_add]
    congr 1
    omega
  have hpow52 : (2:Nat) ^ L * 2 ^ (52 - L) = 2 ^ 52 := by
    rw [← pow_add]
    congr 1
    omega
  have hmlow : rdivEven (k * 2 ^ s * 2 ^ (53 - L)) (2 ^ s) = k * 2 ^ (53 - L) := by
    have hdvd : 2 ^ s ∣ k * 2 ^ s * 2 ^ (53 - L) := ⟨k * 2 ^ (53 - L), by ring⟩
    rw [rdivEven_of_dvd _ _ hden hdvd,
      show k * 2 ^ s * 2 ^ (53 - L) = k * 2 ^ (53 - L) * 2 ^ s from by ring]
    exact Nat.mul_div_cancel _ hden
  have hmmid : rdivEven (k * 2 ^ s * 2 ^ (52 - L)) (2 ^ s) = k * 2 ^ (52 - L) := by
    have hdvd : 2 ^ s ∣ k * 2 ^ s * 2 ^ (52 - L) := ⟨k * 2 ^ (52 - L), by ring⟩
    rw [rdivEven_of_dvd _ _ hden hdvd,
      show k * 2 ^ s * 2 ^ (52 - L) = k * 2 ^ (52 - L) * 2 ^ s from by ring]
    exact Nat.mul_div_cancel _ hden
  have hbl : binadeAt (k * 2 ^ s) (2 ^ s) ((L : Int) - 1)
      = if k = 2 ^ L then some (k * 2 ^ (52 - L), (L : Int) - 52) else none := by
    unfold binadeAt
    dsimp only
    rw [if_pos (by omega : (0:Int) ≤ 52 - ((L : Int) - 1)),
      show ((52:Int) - ((L : Int) - 1)).toNat = 53 - L from by omega, hmlow]
    by_cases hk2 : k = 2 ^ L
    · rw [hk2, if_neg (by omega), if_pos hpow53, if_pos rfl]
      have he : (L : Int) - 1 - 51 = (L : Int) - 52 := by omega
      have hv : (2:Nat) ^ 52 = 2 ^ L * 2 ^ (52 - L) := hpow52.symm
      rw [he, hv]
    · have hklt : 2 ^ L < k := lt_of_le_of_ne ha (Ne.symm hk2)
      have hge : 2 ^ 53 + 2 ^ (53 - L) ≤ k * 2 ^ (53 - L) := by
        have := Nat.mul_le_mul_right (2 ^ (53 - L)) (by omega : 2 ^ L + 1 ≤ k)
        calc 2 ^ 53 + 2 ^ (53 - L) = (2 ^ L + 1) * 2 ^ (53 - L) := by
              rw [Nat.add_mul, hpow53, Nat.one_mul]
        _ ≤ k * 2 ^ (53 - L) := this
      have hp0 : (0:Nat) < 2 ^ (53 - L) := Nat.two_pow_pos _
      rw [if_neg (by omega), if_neg (by omega), if_neg hk2]
  have hbm : binadeAt (k * 2 ^ s) (2 ^ s) (L : Int)
      = some (k * 2 ^ (52 - L), (L : Int) - 52) := by
    unfold binadeAt
    dsimp only
    rw [if_pos (by omega : (0:Int) ≤ 52 - (L : Int)),
      show ((52:Int) - (L : Int)).toNat = 52 - L from by omega, hmmid]
    have hlow : 2 ^ 52 ≤ k * 2 ^ (52 - L) := by
      calc (2:Nat) ^ 52 = 2 ^ L * 2 ^ (52 - L) := hpow52.symm
      _ ≤ k * 2 ^ (52 - L) := Nat.mul_le_mul_right _ ha
    have hhigh : k * 2 ^ (52 - L) < 2 ^ 53 := by
      calc k * 2 ^ (52 - L) < 2 ^ (L + 1) * 2 ^ (52 - L) :=
            Nat.mul_lt_mul_of_lt_of_le hb (Nat.le_refl _) (Nat.two_pow_pos _)
      _ = 2 ^ 53 := hpow53'
    rw [if_pos ⟨hlow, hhigh⟩]
  have hE0 : ((natLog2 (k * 2 ^ s) : Int) - (natLog2 (2 ^ s) : Int)) = (L : Int) := by
    rw [natLog2_mul_pow2 k s hk0, natLog2_pow2]
    push_cast
    ring
  refine Eq.trans (roundDouble_eq_of_binade (k * 2 ^ s) (2 ^ s)
      (Nat.mul_pos hk0 hden).ne' hden.ne' (k * 2 ^ (52 - L)) ((L : Int) - 52) ?_)
    (if_neg (by omega : ¬ (972:Int) ≤ (L : Int) - 52))
  by_cases hk2 : k = 2 ^ L
  · left
    rw [hE0, hbl, if_pos hk2]
  · right
    constructor
    · rw [hE0, hbl, if_neg hk2]
    · rw [hE0]
      exact hbm

theorem roundDouble_pow2_pyInt (k s : Nat) (hk : k < 2 ^ 53) :
    (roundDouble (k * 2 ^ s) (2 ^ s)).pyInt = .ok (k : Int) := by
  rcases Nat.eq_zero_or_pos k with rfl | hk0
  · have hz : roundDouble (0 * 2 ^ s) (2 ^ s) = .finite 0 0 := by
      unfold roundDouble
      rw [if_pos (Or.inl (Nat.zero_mul _))]
    rw [hz]
    rfl
  · rw [roundDouble_pow2_exact k s hk0 hk]
    have hL52 : natLog2 k ≤ 52 := natLog2_le_52 k hk0 hk
    set L := natLog2 k with hL
    show Except.ok
        (if (0:Int) ≤ (L : Int) - 52 then ((k * 2 ^ (52 - L) * 2 ^ ((L : Int) - 52).toNat : Nat) : Int)
         else ((k * 2 ^ (52 - L) / 2 ^ (-((L : Int) - 52)).toNat : Nat) : Int))
      = .ok (k : Int)
    by_cases hL' : L = 52
    · rw [if_pos (by omega : (0:Int) ≤ (L : Int) - 52),
        show (((L : Int) - 52)).toNat = 0 from by omega, hL']
      norm_num
    · rw [if_neg (by omega : ¬ (0:Int) ≤ (L : Int) - 52),
        show (-((L : Int) - 52)).toNat = 52 - L from by omega,
        Nat.mul_div_cancel _ (Nat.two_pow_pos _)]

theorem roundDouble_one_exact (k : Nat) (hk0 : 0 < k) (hk : k < 2 ^ 53) :
    roundDouble k 1 = .finite (k * 2 ^ (52 - natLog2 k)) ((natLog2 k : Int) - 52) := by
  have h := roundDouble_pow2_exact k 0 hk0 hk
  simpa using h

theorem roundDouble_one_pyInt (k : Nat) (hk : k < 2 ^ 53) :
    (roundDouble k 1).pyInt = .ok (k : Int) := by
  have h := roundDouble_pow2_pyInt k 0 hk
  simpa using h

theorem pyInt_error_iff (f : PyFloat) (e : PyErr) :
    f.pyInt = .error e ↔ f = .inf ∧ e = .overflowError := by
  cases f <;> simp [PyFloat.pyInt, eq_comm]

theorem intOfPyFloat_ok (f : PyFloat) (v : Int) (h : f.pyInt = .ok v) :
    intOfPyFloat f = .ok (some v) := by
  unfold intOfPyFloat
  rw [h]

theorem intOfPyFloat_error (f : PyFloat) (e : PyErr) (h : f.pyInt = .error e) :
    intOfPyFloat f = .error e := by
  unfold intOfPyFloat
  rw [h]

theorem ofDigits_nil (l : List Char) : Decimal.ofDigits l [] = ⟨digitVal l, 0⟩ := by
  simp [Decimal.ofDigits, digitVal_nil]

theorem toPyFloat_mk_zero (k : Nat) : (Decimal.mk k 0).toPyFloat = roundDouble k 1 := by
  simp [Decimal.toPyFloat]

/-- The whole numeric pipeline of the strict branch is exact while the
scaled value stays below `2^53`. -/
theorem toPyFloat_scaleBy_pyInt_exact (k scale : Nat) (hs : 0 < scale)
    (hk : k * scale < 2 ^ 53) :
    ((Decimal.mk k 0).toPyFloat.scaleBy scale).pyInt = .ok ((k * scale : Nat) : Int) := by
  have hk53 : k < 2 ^ 53 := lt_of_le_of_lt (Nat.le_mul_of_pos_right k hs) hk
  rw [toPyFloat_mk_zero]
  by_cases h1 : scale = 1
  · subst h1
    rw [PyFloat.scaleBy, if_pos rfl, roundDouble_one_pyInt k hk53]
    simp
  · rw [PyFloat.scaleBy, if_neg h1]
    rcases Nat.eq_zero_or_pos k with rfl | hk0
    · have hz : roundDouble 0 1 = .finite 0 0 := by
        unfold roundDouble
        rw [if_pos (Or.inl rfl)]
      rw [hz]
      show (if (0:Int) ≤ 0 then roundDouble (0 * scale * 2 ^ ((0:Int)).toNat) 1
        else roundDouble (0 * scale) (2 ^ (-(0:Int)).toNat)).pyInt
        = Except.ok ((0 * scale : Nat) : Int)
      rw [if_pos (by omega : (0:Int) ≤ 0)]
      have hz2 : roundDouble (0 * scale * 2 ^ ((0:Int)).toNat) 1 = .finite 0 0 := by
        unfold roundDouble
        rw [if_pos (Or.inl (by simp))]
      rw [hz2]
      simp [PyFloat.pyInt]
    · rw [roundDouble_one_exact k hk0 hk53]
      have hL52 : natLog2 k ≤ 52 := natLog2_le_52 k hk0 hk53
      set L := natLog2 k with hL
      show (if (0:Int) ≤ (L : Int) - 52 then
          roundDouble (k * 2 ^ (52 - L) * scale * 2 ^ (((L : Int) - 52)).toNat) 1
        else roundDouble (k * 2 ^ (52 - L) * scale) (2 ^ (-((L : Int) - 52)).toNat)).pyInt
        = Except.ok ((k * scale : Nat) : Int)
      by_cases hLe : (0:Int) ≤ (L : Int) - 52
      · have hL' : L = 52 := by omega
        rw [if_pos hLe,
          show (((L : Int) - 52)).toNat = 0 from by omega]
        have harg : k * 2 ^ (52 - L) * scale * 2 ^ 0 = k * scale := by
          rw [hL']
          ring_nf
        rw [harg]
        exact roundDouble_one_pyInt (k * scale) hk
      · rw [if_neg hLe,
          show (-((L : Int) - 52)).toNat = 52 - L from by omega]
        have harg : k * 2 ^ (52 - L) * scale = k * scale * 2 ^ (52 - L) := by ring
        rw [harg]
        exact roundDouble_pow2_pyInt (k * scale) (52 - L) hk

theorem parseStrict_ok (x : Decimal) (scale : Nat) (v : Int)
    (h : (x.toPyFloat.scaleBy scale).pyInt = .ok v) : parseStrict x scale = .ok (some v) := by
  unfold parseStrict
  exact intOfPyFloat_ok _ _ h

/-- A digit string with an optional `k`/`m` suffix parses to the exact
scaled digit value as long as that value stays below `2^53` (the range
where double arithmetic is exact). -/
theorem parse_int_digits_suffix (t : String) (c : Char) (d : List Char)
    (h : ∀ x ∈ c :: d, x ∈ digitChars) :
    (t.data = (c :: d) ++ ['k'] → digitVal (c :: d) * 1000 < 2 ^ 53 →
      parse_int (some t) = .ok (some ((digitVal (c :: d) * 1000 : Nat) : Int)))
    ∧ (t.data = (c :: d) ++ ['m'] → digitVal (c :: d) * 1000000 < 2 ^ 53 →
      parse_int (some t) = .ok (some ((digitVal (c :: d) * 1000000 : Nat) : Int)))
    ∧ (t.data = c :: d → digitVal (c :: d) < 2 ^ 53 →
      parse_int (some t) = .ok (some ((digitVal (c :: d) : Nat) : Int))) := by
  have hdig : ∀ x ∈ c :: d, x.isDigit = true := fun x hx => (char_digit_props x (h x hx)).1
  have hcleanD : ∀ x ∈ c :: d,
      (x != ',') = true ∧ x.isWhitespace = false ∧ x.toLower = x := fun x hx => by
    obtain ⟨_, h2, h3, h4⟩ := char_digit_props x (h x hx)
    exact ⟨h3, h4, h2⟩
  have hsuffix : ∀ u : Char, u = 'k' ∨ u = 'm' →
      (u != ',') = true ∧ u.isWhitespace = false ∧ u.toLower = u := by
    rintro u (rfl | rfl) <;> exact ⟨rfl, rfl, rfl⟩
  have hnormk : pyNormalize ((c :: d) ++ ['k']) = (c :: d) ++ ['k'] := by
    refine pyNormalize_eq_self _ fun x hx => ?_
    rcases List.mem_append.mp hx with hm | hm
    · exact hcleanD x hm
    · exact hsuffix x (Or.inl (List.mem_singleton.mp hm))
  have hnormm : pyNormalize ((c :: d) ++ ['m']) = (c :: d) ++ ['m'] := by
    refine pyNormalize_eq_self _ fun x hx => ?_
    rcases List.mem_append.mp hx with hm | hm
    · exact hcleanD x hm
    · exact hsuffix x (Or.inr (List.mem_singleton.mp hm))
  have hnorm0 : pyNormalize (c :: d) = c :: d := pyNormalize_eq_self _ hcleanD
  obtain ⟨hsk, hsm, hs0⟩ := strictMatch_digits c d hdig
  refine ⟨fun ht hbound => ?_, fun ht hbound => ?_, fun ht hbound => ?_⟩
  · rw [parse_int_some_eq, ht, hnormk, hsk]
    show parseStrict (Decimal.ofDigits (c :: d) []) 1000
      = .ok (some ((digitVal (c :: d) * 1000 : Nat) : Int))
    rw [ofDigits_nil]
    exact parseStrict_ok _ 1000 _ (toPyFloat_scaleBy_pyInt_exact _ 1000 (by omega) hbound)
  · rw [parse_int_some_eq, ht, hnormm, hsm]
    show parseStrict (Decimal.ofDigits (c :: d) []) 1000000
      = .ok (some ((digitVal (c :: d) * 1000000 : Nat) : Int))
    rw [ofDigits_nil]
    exact parseStrict_ok _ 1000000 _ (toPyFloat_scaleBy_pyInt_exact _ 1000000 (by omega) hbound)
  · rw [parse_int_some_eq, ht, hnorm0, hs0]
    show parseStrict (Decimal.ofDigits (c :: d) []) 1
      = .ok (some ((digitVal (c :: d) : Nat) : Int))
    rw [ofDigits_nil]
    have hmul : digitVal (c :: d) * 1 < 2 ^ 53 := by omega
    have := parseStrict_ok _ 1 _ (toPyFloat_scaleBy_pyInt_exact (digitVal (c :: d)) 1
      (by omega) hmul)
    simpa using this

/-- C5 (counterexample): the claim's general scaling rule — every
grammar-matching string is the scaled digit value cast to integer — fails
above double precision: `2^53 + 1 = 9007199254740993` rounds to the
nearest even double, so the parser returns `9007199254740992`, not the
digit value itself. -/
theorem C5_counterexample :
    parse_int (some "9007199254740993") = .ok (some 9007199254740992) := by decide

/-- C5 (amended): the six claimed concrete values hold, and the
grammar/scaling rule holds exactly for every digit string (with optional
`k`/`m` suffix) whose scaled value stays below `2^53`; above that the
result is the nearest double (see `C5_counterexample`). -/
theorem C5_magnitude_parser_contract :
    parse_int (some "1.2K") = .ok (some 1200)
    ∧ parse_int (some "846K") = .ok (some 846000)
    ∧ parse_int (some "3M") = .ok (some 3000000)
    ∧ parse_int (some "52,345") = .ok (some 52345)
    ∧ parse_int none = .ok none
    ∧ parse_int (some "abc") = .ok none
    ∧ ∀ (t : String) (c : Char) (d : List Char), (∀ x ∈ c :: d, x ∈ digitChars) →
        (t.data = (c :: d) ++ ['k'] → digitVal (c :: d) * 1000 < 2 ^ 53 →
          parse_int (some t) = .ok (some ((digitVal (c :: d) * 1000 : Nat) : Int)))
        ∧ (t.data = (c :: d) ++ ['m'] → digitVal (c :: d) * 1000000 < 2 ^ 53 →
          parse_int (some t) = .ok (some ((digitVal (c :: d) * 1000000 : Nat) : Int)))
        ∧ (t.data = c :: d → digitVal (c :: d) < 2 ^ 53 →
          parse_int (some t) = .ok (some ((digitVal (c :: d) : Nat) : Int))) :=
  ⟨by decide, by decide, by decide, by decide, rfl, by decide,
   fun t c d h => parse_int_digits_suffix t c d h⟩

/-- C5 (witness): the scaling rule instantiated at `"846k"`. -/
theorem C5_witness : parse_int (some "846k") = .ok (some 846000) := by
  rw [(C5_magnitude_parser_contract.2.2.2.2.2.2 "846k" '8' ['4', '6'] (by decide)).1
    (by decide) (by decide)]
  rfl

/-- C4 (counterexample): the magnitude parser is not total — on `"1.2.3"`
(a non-null string containing digits) the strict grammar fails, the
fallback extracts the token `1.2.3`, and `float("1.2.3")` raises
`ValueError` instead of returning an integer. -/
theorem C4_counterexample : parse_int (some "1.2.3") = .error .valueError := by decide

/-- C4 (amended): the parser returns null exactly when the normalized
input contains no digit; raises `ValueError` exactly when the strict
grammar fails and the extracted fallback token is not a valid float
literal (two or more dots); raises `OverflowError` exactly when the
matched value (after any suffix scaling) rounds to infinity in double
precision; and on every other input returns an integer. -/
theorem C4_parser_result_characterization (s : String) :
    (parse_int (some s) = .ok none
      ↔ (pyNormalize s.data).all (fun c => !c.isDigit) = true)
    ∧ (parse_int (some s) = .error .valueError
      ↔ strictMatch (pyNormalize s.data) = none
        ∧ ∃ g, fallbackSearch (pyNormalize s.data) = some g ∧ floatOfToken g = none)
    ∧ (parse_int (some s) = .error .overflowError
      ↔ (∃ x scale, strictMatch (pyNormalize s.data) = some (x, scale)
          ∧ x.toPyFloat.scaleBy scale = .inf)
        ∨ (strictMatch (pyNormalize s.data) = none
          ∧ ∃ g x, fallbackSearch (pyNormalize s.data) = some g
            ∧ floatOfToken g = some x ∧ x.toPyFloat = .inf)) := by
  have hdigit_of_not_fb : ∀ hall : (pyNormalize s.data).all (fun c => !c.isDigit) = true,
      fallbackSearch (pyNormalize s.data) = none := fun hall =>
    (fallbackSearch_eq_none_iff _).mpr fun c hc => by
      simpa using List.all_eq_true.mp hall c hc
  have hsm_of_all : ∀ hall : (pyNormalize s.data).all (fun c => !c.isDigit) = true,
      strictMatch (pyNormalize s.data) = none := fun hall =>
    strictMatch_eq_none_of_no_digit _ fun c hc => by
      simpa using List.all_eq_true.mp hall c hc
  cases hsm : strictMatch (pyNormalize s.data) with
  | some pr =>
    obtain ⟨x, sc⟩ := pr
    have hpA : parse_int (some s) = parseStrict x sc := by
      rw [parse_int_some_eq, hsm]
    cases hpi : (x.toPyFloat.scaleBy sc).pyInt with
    | ok v =>
      have hp : parse_int (some s) = .ok (some v) := by
        rw [hpA]
        unfold parseStrict
        exact intOfPyFloat_ok _ _ hpi
      rw [hp]
      refine ⟨⟨fun h => absurd h (by simp), fun hall => ?_⟩,
        ⟨fun h => absurd h (by simp), ?_⟩,
        ⟨fun h => absurd h (by simp), ?_⟩⟩
      · have hnone := hsm_of_all hall
        rw [hsm] at hnone
        exact absurd hnone (by simp)
      · rintro ⟨hnone, -⟩
        exact absurd hnone (by simp)
      · rintro (⟨x', sc', hx', hinf⟩ | ⟨hnone, -⟩)
        · injection hx' with hpair
          injection hpair with h1 h2
          subst h1
          subst h2
          have hcontra := (pyInt_error_iff (x.toPyFloat.scaleBy sc) .overflowError).mpr ⟨hinf, rfl⟩
          rw [hpi] at hcontra
          exact absurd hcontra (by simp)
        · exact absurd hnone (by simp)
    | error e =>
      obtain ⟨hinf, rfl⟩ := (pyInt_error_iff _ e).mp hpi
      have hp : parse_int (some s) = .error .overflowError := by
        rw [hpA]
        unfold parseStrict
        exact intOfPyFloat_error _ _ hpi
      rw [hp]
      refine ⟨⟨fun h => absurd h (by simp), fun hall => ?_⟩,
        ⟨fun h => absurd h (by simp), ?_⟩,
        ⟨fun _ => Or.inl ⟨x, sc, rfl, hinf⟩, fun _ => rfl⟩⟩
      · have hnone := hsm_of_all hall
        rw [hsm] at hnone
        exact absurd hnone (by simp)
      · rintro ⟨hnone, -⟩
        exact absurd hnone (by simp)
  | none =>
    have hp1 : parse_int (some s) = parseFallback (pyNormalize s.data) := by
      rw [parse_int_some_eq, hsm]
    cases hfb : fallbackSearch (pyNormalize s.data) with
    | none =>
      have hp : parse_int (some s) = .ok none := by
        rw [hp1]
        unfold parseFallback
        rw [hfb]
      rw [hp]
      refine ⟨⟨fun _ => ?_, fun _ => rfl⟩,
        ⟨fun h => absurd h (by simp), ?_⟩,
        ⟨fun h => absurd h (by simp), ?_⟩⟩
      · rw [List.all_eq_true]
        intro c hc
        simp [(fallbackSearch_eq_none_iff _).mp hfb c hc]
      · rintro ⟨-, g, hg, -⟩
        exact absurd hg (by simp)
      · rintro (⟨x', sc', hx', -⟩ | ⟨-, g, x', hg, -, -⟩)
        · exact absurd hx' (by simp)
        · exact absurd hg (by simp)
    | some g =>
      have hp2 : parse_int (some s) = parseToken g := by
        rw [hp1]
        unfold parseFallback
        rw [hfb]
      cases hft : floatOfToken g with
      | none =>
        have hp : parse_int (some s) = .error .valueError := by
          rw [hp2]
          unfold parseToken
          rw [hft]
        rw [hp]
        refine ⟨⟨fun h => absurd h (by simp), fun hall => ?_⟩,
          ⟨fun _ => ⟨rfl, g, rfl, hft⟩, fun _ => rfl⟩,
          ⟨fun h => absurd h (by simp), ?_⟩⟩
        · have hnone := hdigit_of_not_fb hall
          rw [hfb] at hnone
          exact absurd hnone (by simp)
        · rintro (⟨x', sc', hx', -⟩ | ⟨-, g', x', hg', hft', -⟩)
          · exact absurd hx' (by simp)
          · cases Option.some.inj hg'
            rw [hft] at hft'
            exact absurd hft' (by simp)
      | some x =>
        cases hpi : x.toPyFloat.pyInt with
        | ok v =>
          have hp : parse_int (some s) = .ok (some v) := by
            rw [hp2]
            unfold parseToken
            rw [hft]
            exact intOfPyFloat_ok _ _ hpi
          rw [hp]
          refine ⟨⟨fun h => absurd h (by simp), fun hall => ?_⟩,
            ⟨fun h => absurd h (by simp), ?_⟩,
            ⟨fun h => absurd h (by simp), ?_⟩⟩
          · have hnone := hdigit_of_not_fb hall
            rw [hfb] at hnone
            exact absurd hnone (by simp)
          · rintro ⟨-, g', hg', hbad⟩
            cases Option.some.inj hg'
            rw [hft] at hbad
            exact absurd hbad (by simp)
          · rintro (⟨x', sc', hx', -⟩ | ⟨-, g', x', hg', hx', hinf⟩)
            · exact absurd hx' (by simp)
            · cases Option.some.inj hg'
              rw [hft] at hx'
              cases Option.some.inj hx'
              rw [hinf] at hpi
              simp [PyFloat.pyInt] at hpi
        | error e =>
          obtain ⟨hinf, rfl⟩ := (pyInt_error_iff _ e).mp hpi
          have hp : parse_int (some s) = .error .overflowError := by
            rw [hp2]
            unfold parseToken
            rw [hft]
            exact intOfPyFloat_error _ _ hpi
          rw [hp]
          refine ⟨⟨fun h => absurd h (by simp), fun hall => ?_⟩,
            ⟨fun h => absurd h (by simp), ?_⟩,
            ⟨fun _ => Or.inr ⟨rfl, g, x, rfl, hft, hinf⟩, fun _ => rfl⟩⟩
          · have hnone := hdigit_of_not_fb hall
            rw [hfb] at hnone
            exact absurd hnone (by simp)
          · rintro ⟨-, g', hg', hbad⟩
            cases Option.some.inj hg'
            rw [hft] at hbad
            exact absurd hbad (by simp)

set_option maxRecDepth 100000 in
/-- C4 (witness): the null case of the characterization at `"abc"`, and
the overflow case at the 310-digit string `1 · 10^309`, whose double
rounds to infinity so `int(...)` raises `OverflowError`. -/
theorem C4_witness :
    parse_int (some "abc") = .ok none
    ∧ parse_int (some ⟨'1' :: List.replicate 309 '0'⟩) = .error .overflowError :=
  ⟨(C4_parser_result_characterization "abc").1.mpr (by decide),
   (C4_parser_result_characterization ⟨'1' :: List.replicate 309 '0'⟩).2.2.mpr
     (Or.inl ⟨Decimal.ofDigits ('1' :: List.replicate 309 '0') [], 1, by decide, by decide⟩)⟩

theorem extractFromJsonBlocks_ok_inv (html : List Char) (fj : MetricDict)
    (hok : extractFromJsonBlocks html = .ok fj) :
    ∃ imp vws lks rcts cmts rpls rpsts shrs,
      jsonNum html "impressions".data = .ok imp ∧ jsonNum html "views".data = .ok vws
      ∧ jsonNum html "likes".data = .ok lks ∧ jsonNum html "reactions".data = .ok rcts
      ∧ jsonNum html "comments".data = .ok cmts ∧ jsonNum html "replies".data = .ok rpls
      ∧ jsonNum html "reposts".data = .ok rpsts ∧ jsonNum html "shares".data = .ok shrs
      ∧ fj = ⟨pyOr imp vws, pyOr rcts lks, pyOr cmts rpls, pyOr rpsts shrs⟩ := by
  unfold extractFromJsonBlocks at hok
  split at hok
  · exact ⟨_, _, _, _, _, _, _, _, by assumption, by assumption, by assumption, by assumption,
      by assumption, by assumption, by assumption, by assumption, (Except.ok.inj hok).symm⟩
  · exact absurd hok (by simp)

theorem fetchPostMetricsCore_ok_shape (text html : List Char) (l : List (MetricName × Int))
    (h : fetchPostMetricsCore text html = .ok l) : ∃ d : MetricDict, l = dropNone d := by
  unfold fetchPostMetricsCore at h
  split at h
  · split at h
    · exact ⟨_, (Except.ok.inj h).symm⟩
    · exact absurd h (by simp)
  · exact absurd h (by simp)

theorem map_fst_filterMap_sublist {α β : Type} (l : List α) (f : α → Option β) :
    ((l.filterMap fun a => (f a).map fun b => (a, b)).map Prod.fst).Sublist l := by
  induction l with
  | nil => simp
  | cons a rest ih =>
    cases hf : f a with
    | none =>
      simp only [List.filterMap_cons, hf, Option.map_none']
      exact ih.cons a
    | some b =>
      simp only [List.filterMap_cons, hf, Option.map_some', List.map_cons]
      exact ih.cons₂ a

theorem dropNone_keys_sublist (d : MetricDict) :
    ((dropNone d).map Prod.fst).Sublist metricNames :=
  map_fst_filterMap_sublist metricNames d.get

/-- C6 (counterexample): on a page whose embedded structured data carries
`"impressions": "0"` and `"views": "7"` — both synonym keys present and
parsing to integers — with no Phase-1 match in the visible text, the
extractor emits the synonym's value 7 for `impressions`, not the preferred
key's 0: Python's `or` treats the parsed 0 as falsy. -/
theorem C6_counterexample :
    fetch_post_metrics
        (.ok (200, "\"impressions\": \"0\", \"views\": \"7\"".data, "".data))
      = [(.impressions, 7)]
    ∧ (MetricName.impressions, (0 : Int)) ∉ fetch_post_metrics
        (.ok (200, "\"impressions\": \"0\", \"views\": \"7\"".data, "".data)) := by
  decide

/-- C6 (amended): in Phase 2 the preferred key's value is emitted whenever
it parses to a **nonzero** integer; a preferred 0 is falsy under Python's
`or`, so the merge yields exactly the synonym's value — in particular a
synonym 0 is still emitted (it passes the later `is not None` filter), and
the metric is dropped only when the synonym is absent or unparsed; and
Phase-2 values are written only into metrics Phase 1 left unfilled. -/
theorem C6_synonym_preference_amended (m : MetricName) :
    (∀ (html : List Char) (fj : MetricDict) (v : Int),
      extractFromJsonBlocks html = .ok fj →
      jsonNum html (primaryKey m) = .ok (some v) → v ≠ 0 →
      fj.get m = some v)
    ∧ (∀ (metrics fromJson : MetricDict) (w : Int),
      metrics.get m = some w → (fillMissing metrics fromJson).get m = some w)
    ∧ ∀ b : Option Int, pyOr (some 0) b = b := by
  refine ⟨?_, ?_, fun b => by simp [pyOr]⟩
  · intro html fj v hok hv hnz
    obtain ⟨imp, vws, lks, rcts, cmts, rpls, rpsts, shrs,
      h1, h2, h3, h4, h5, h6, h7, h8, hfj⟩ := extractFromJsonBlocks_ok_inv html fj hok
    subst hfj
    cases m with
    | impressions =>
      have : imp = some v := Except.ok.inj ((h1.symm.trans hv))
      subst this
      simp [MetricDict.get, pyOr, hnz]
    | reactions =>
      have : rcts = some v := Except.ok.inj ((h4.symm.trans hv))
      subst this
      simp [MetricDict.get, pyOr, hnz]
    | comments =>
      have : cmts = some v := Except.ok.inj ((h5.symm.trans hv))
      subst this
      simp [MetricDict.get, pyOr, hnz]
    | reposts =>
      have : rpsts = some v := Except.ok.inj ((h7.symm.trans hv))
      subst this
      simp [MetricDict.get, pyOr, hnz]
  · intro metrics fromJson w hw
    cases m <;> simp [MetricDict.get, fillMissing] at hw ⊢ <;> simp [hw]

/-- C6 (witness): the amended preference at concrete structured data
`"impressions": "5"`. -/
theorem C6_witness :
    ∃ fj : MetricDict, extractFromJsonBlocks "\"impressions\": \"5\"".data = .ok fj
      ∧ fj.get .impressions = some 5 := by
  refine ⟨_, rfl, ?_⟩
  exact (C6_synonym_preference_amended .impressions).1 "\"impressions\": \"5\"".data _ 5
    rfl (by decide) (by decide)

/-- C7: the metric extractor's boundary contract — the returned mapping
binds only the four metric keys (each necessarily to an integer, by its
type), each at most once and in fixed order; a raised fetch exception, a
non-200 status, or a parse failure (`ValueError`) each yield the empty
mapping; the function is total, so nothing escapes the boundary. -/
theorem C7_extractor_boundary (fetch : Except Unit (Nat × List Char × List Char)) :
    ((fetch_post_metrics fetch).map Prod.fst).Sublist metricNames
    ∧ (∀ e : Unit, fetch = .error e → fetch_post_metrics fetch = [])
    ∧ (∀ status html text, fetch = .ok (status, html, text) → status ≠ 200 →
        fetch_post_metrics fetch = [])
    ∧ (∀ status html text, fetch = .ok (status, html, text) →
        fetchPostMetricsCore text html = .error () → fetch_post_metrics fetch = []) := by
  refine ⟨?_, ?_, ?_, ?_⟩
  · match fetch with
    | .error e => simp [fetch_post_metrics]
    | .ok (st, html, text) =>
      by_cases hst : st ≠ 200
      · simp [fetch_post_metrics, hst]
      · cases hc : fetchPostMetricsCore text html with
        | error e => simp [fetch_post_metrics, hst, hc]
        | ok l =>
          obtain ⟨d, rfl⟩ := fetchPostMetricsCore_ok_shape text html l hc
          simp only [fetch_post_metrics, hst, if_false, hc]
          exact dropNone_keys_sublist d
  · rintro e rfl; rfl
  · rintro st html text rfl hne
    simp [fetch_post_metrics, hne]
  · rintro st html text rfl hcore
    by_cases hst : st ≠ 200
    · simp [fetch_post_metrics, hst]
    · simp [fetch_post_metrics, hst, hcore]

/-- C7 (witness): the empty mapping at a concrete raised fetch and a
concrete 404 response. -/
theorem C7_witness :
    fetch_post_metrics (.error ()) = []
    ∧ fetch_post_metrics (.ok (404, "\"views\": 9".data, "".data)) = [] :=
  ⟨(C7_extractor_boundary (.error ())).2.1 () rfl,
   (C7_extractor_boundary (.ok (404, "\"views\": 9".data, "".data))).2.2.1
     404 "\"views\": 9".data "".data rfl (by decide)⟩

/-- C8: the enrichment scheduler selects exactly the records with at least
one missing metric (the "any missing" predicate), at most `batch_limit` of
them, in store order; in particular a record with `impressions = 10` and
the other three metrics null qualifies and is selected. -/
theorem C8_enrichment_selection (df : List Post) (n : Nat) :
    (∀ p ∈ selectNeed df n, anyMetricMissing p = true)
    ∧ (selectNeed df n).length ≤ n
    ∧ (selectNeed df n).Sublist df
    ∧ ((df.filter anyMetricMissing).length ≤ n →
        selectNeed df n = df.filter anyMetricMissing)
    ∧ selectNeed [{ article_link := some "P", impressions := some 10 }] 40
        = [{ article_link := some "P", impressions := some 10 }] := by
  refine ⟨?_, ?_, ?_, ?_, by decide⟩
  · intro p hp
    exact List.of_mem_filter (List.take_subset n _ hp)
  · exact List.length_take_le n _
  · exact (List.take_sublist n _).trans (List.filter_sublist df)
  · intro h
    exact List.take_of_length_le h

/-- C8 (witness): the completeness case at a concrete one-record store. -/
theorem C8_witness :
    selectNeed [{ article_link := some "P", reactions := some 3 }] 40
      = List.filter anyMetricMissing [{ article_link := some "P", reactions := some 3 }] :=
  (C8_enrichment_selection [{ article_link := some "P", reactions := some 3 }] 40).2.2.2.1
    (by decide)

theorem pagLoop_spec {α : Type} (pages : Nat → List α) (limit : Nat) :
    ∀ (fuel i : Nat) (posts : List α) (reqs : Nat) (got : Bool),
      pagLoop pages limit i fuel = (posts, reqs, got) →
      reqs ≤ fuel
      ∧ (∀ j, j + 1 < reqs → ¬ stopsPage limit (pages (i + j)))
      ∧ (reqs < fuel → 0 < reqs ∧ stopsPage limit (pages (i + reqs - 1))) := by
  intro fuel
  induction fuel with
  | zero =>
    intro i posts reqs got heq
    injection heq with hposts hrest
    injection hrest with hreqs hgot
    subst hreqs
    exact ⟨Nat.le_refl 0, fun j hj => absurd hj (by omega), fun h => absurd h (by omega)⟩
  | succ fuel ih =>
    intro i posts reqs got heq
    rw [pagLoop] at heq
    by_cases hempty : (pages i).isEmpty = true
    · rw [if_pos hempty] at heq
      injection heq with hposts hrest
      injection hrest with hreqs hgot
      subst hreqs
      refine ⟨by omega, fun j hj => absurd hj (by omega), fun _ => ⟨by omega, ?_⟩⟩
      have : i + 1 - 1 = i + 0 := by omega
      rw [this, Nat.add_zero]
      exact Or.inl (List.isEmpty_iff.mp hempty)
    · rw [if_neg hempty] at heq
      by_cases hshort : (pages i).length < limit
      · rw [if_pos hshort] at heq
        injection heq with hposts hrest
        injection hrest with hreqs hgot
        subst hreqs
        refine ⟨by omega, fun j hj => absurd hj (by omega), fun _ => ⟨by omega, ?_⟩⟩
        have : i + 1 - 1 = i + 0 := by omega
        rw [this, Nat.add_zero]
        exact Or.inr hshort
      · rw [if_neg hshort] at heq
        injection heq with hposts hrest
        injection hrest with hreqs hgot
        obtain ⟨hle, hmid, hstop⟩ := ih (i + 1)
          (pagLoop pages limit (i + 1) fuel).1
          (pagLoop pages limit (i + 1) fuel).2.1
          (pagLoop pages limit (i + 1) fuel).2.2 rfl
        subst hreqs
        refine ⟨by omega, ?_, ?_⟩
        · intro j hj
          match j with
          | 0 =>
            rw [Nat.add_zero]
            rintro (hnil | hlt)
            · rw [hnil] at hempty; exact hempty rfl
            · exact hshort hlt
          | j' + 1 =>
            have hidx : i + (j' + 1) = (i + 1) + j' := by omega
            rw [hidx]
            exact hmid j' (by omega)
        · intro hlt
          have hr : (pagLoop pages limit (i + 1) fuel).2.1 < fuel := by omega
          obtain ⟨hpos, hstop'⟩ := hstop hr
          have hidx : i + ((pagLoop pages limit (i + 1) fuel).2.1 + 1) - 1
              = (i + 1) + (pagLoop pages limit (i + 1) fuel).2.1 - 1 := by omega
          rw [hidx]
          exact ⟨by omega, hstop'⟩

/-- C9: pagination of a shape stops exactly at an empty page, a short
page, or the `max_pages` ceiling — every page requested before the last is
full-sized, an early stop happens only at an empty/short page, never more
than `max_pages` requests are issued — and once a shape's pagination has
yielded a page (`got_any`), no further shape is attempted; concretely, the
`[20, 20, 5]` shape at page size 20 issues exactly 3 page requests. -/
theorem C9_pagination_termination :
    (paginateShape c9pages 20 8).2.1 = 3
    ∧ (∀ (α : Type) (pages : Nat → List α) (limit maxPages : Nat)
        (posts : List α) (reqs : Nat) (got : Bool),
        paginateShape pages limit maxPages = (posts, reqs, got) →
        reqs ≤ maxPages
        ∧ (∀ j, j + 1 < reqs → ¬ stopsPage limit (pages j))
        ∧ (reqs < maxPages → 0 < reqs ∧ stopsPage limit (pages (reqs - 1))))
    ∧ (∀ (α : Type) (limit maxPages : Nat) (s : Nat → List α)
        (rest : List (Nat → List α)),
        (paginateShape s limit maxPages).2.2 = true →
        tryShapes limit maxPages (s :: rest) = ((paginateShape s limit maxPages).1, 1)) := by
  refine ⟨by decide, ?_, ?_⟩
  · intro α pages limit maxPages posts reqs got heq
    obtain ⟨h1, h2, h3⟩ := pagLoop_spec pages limit maxPages 0 posts reqs got heq
    refine ⟨h1, fun j hj => ?_, fun hlt => ?_⟩
    · have := h2 j hj
      rwa [Nat.zero_add] at this
    · have := h3 hlt
      rwa [Nat.zero_add] at this
  · intro α limit maxPages s rest hgot
    rw [tryShapes, if_pos hgot]

/-- C9 (witness): the general stopping facts at the `[20, 20, 5]` shape —
3 requests within the ceiling of 8, the first page not a stopping page,
the third page a stopping page. -/
theorem C9_witness :
    (3 : Nat) ≤ 8 ∧ ¬ stopsPage 20 (c9pages 0) ∧ stopsPage 20 (c9pages 2) := by
  obtain ⟨h1, h2, h3⟩ :=
    C9_pagination_termination.2.1 Nat c9pages 20 8
      (List.range 20 ++ (List.range 20 ++ List.range 5)) 3 true (by decide)
  exact ⟨h1, h2 0 (by omega), (h3 (by omega)).2⟩

end ESMarketing
